import Mathlib

/-!
Shallow embedding of the WebRTC signaling servers of this repository.

The repository holds two server variants:

* the room-based signaling server (the unnamed source file): a `rooms`
  map from room id to the set of member connections, a reverse
  `clientToRoom` map, a message handler dispatching between
  `handleJoinRoom` and `broadcastToRoom`, and `handleDisconnect` invoked
  on both the close and the error event.  Embedded in namespace `Signal`.
* `src/index.ts` (compiled to `dist/index.js`): a room-less relay with a
  flat `peers` set, strict `type`-field validation and an unknown-type
  error reply.  Embedded in namespace `Signal.IndexTs`.

Connections are opaque handles (`Conn := Nat`); the transport's
`readyState === WebSocket.OPEN` test is an abstract predicate
`isOpen : Conn → Bool` passed to the handlers.  JavaScript `Map`s are
embedded as association lists accessed only through `mapGet` /
`mapSet` / `mapDelete` (iteration order of the directory maps is never
observed by the code), and JavaScript `Set`s of connections as
duplicate-free lists in insertion order (`setAdd` appends when absent,
matching `Set.prototype.add`; `for (const c of room)` iterates in that
order).  An outbound `ws.send(JSON.stringify(x))` is recorded as a pair
`(recipient, message)`; `OutMsg.errorEnv s` stands for the encoded
envelope with fields `type: "error", message: s`, and
`OutMsg.forwardEnv m` for the re-encoded inbound envelope `m`.

A decoded inbound JSON value is an `Envelope`: its `type` field is
absent (`none`) or a JSON value (`JVal.jstr s` for a string,
`JVal.jother` for any non-string value); its `roomId` field is absent or
a string (the code only ever tests its truthiness and stores it, and
string-typed `roomId` is the shape the protocol defines; among strings
exactly `""` is falsy).  `payload` carries the opaque rest of the
envelope (`sdp`, `candidate`, ...), which the servers forward without
inspecting.  An undecodable payload (a `JSON.parse` throw) is embedded
as the `none` case of the `Option Envelope` given to the handler.
-/

namespace Signal

/-- Opaque connection handles. -/
abbrev Conn := Nat

/-- Room identifiers: caller-supplied strings. -/
abbrev RoomId := String

/-- A JSON value as far as the routers inspect one: a string, or any
non-string value. -/
inductive JVal where
  | jstr (s : String)
  | jother
deriving DecidableEq

/-- A decoded inbound message envelope (see the module docstring). -/
structure Envelope where
  type : Option JVal
  roomId : Option String
  payload : String
deriving DecidableEq

/-- One outbound send issued by the room server. -/
inductive OutMsg where
  | errorEnv (message : String)
  | forwardEnv (m : Envelope)
deriving DecidableEq

/-- `Map.prototype.get`: the value stored under `k`, if any. -/
def mapGet {α β : Type} [DecidableEq α] (k : α) : List (α × β) → Option β
  | [] => none
  | (a, b) :: l => if a = k then some b else mapGet k l

/-- Removal of every entry under `k` (the embedding of
`Map.prototype.delete`; the operations keep keys unique). -/
def mapDelete {α β : Type} [DecidableEq α] (k : α) : List (α × β) → List (α × β)
  | [] => []
  | (a, b) :: l => if a = k then mapDelete k l else (a, b) :: mapDelete k l

/-- `Map.prototype.set`: bind `k` to `v`, replacing any previous
binding. -/
def mapSet {α β : Type} [DecidableEq α] (k : α) (v : β) (l : List (α × β)) :
    List (α × β) :=
  (k, v) :: mapDelete k l

/-- `Set.prototype.add` on a member list: append when absent. -/
def setAdd (c : Conn) (ms : List Conn) : List Conn :=
  if c ∈ ms then ms else ms ++ [c]

/-- `Set.prototype.delete` on a member list. -/
def setDelete (c : Conn) : List Conn → List Conn
  | [] => []
  | d :: l => if d = c then setDelete c l else d :: setDelete c l

/-- The room server's mutable state: the `rooms` directory and the
`clientToRoom` reverse map. -/
structure ServerState where
  rooms : List (RoomId × List Conn)
  clientToRoom : List (Conn × RoomId)
deriving DecidableEq

/-- `handleJoinRoom(ws, roomId)`: a no-op when the client already has a
room assignment; otherwise create the room if absent, add the client to
its member set, and record the reverse mapping. -/
def handleJoinRoom (ws : Conn) (roomId : RoomId) (st : ServerState) : ServerState :=
  match mapGet ws st.clientToRoom with
  | some _ => st
  | none =>
    { rooms := mapSet roomId (setAdd ws ((mapGet roomId st.rooms).getD [])) st.rooms
      clientToRoom := mapSet ws roomId st.clientToRoom }

/-- `broadcastToRoom(senderWs, message)`: the sender's room id is looked
up in the reverse map; a falsy result (`undefined` or `""`) draws the
join-before-send error reply; a missing room entry is the silent
defensive branch; otherwise the message is forwarded to every other
member whose connection is open. -/
def broadcastToRoom (isOpen : Conn → Bool) (senderWs : Conn) (message : Envelope)
    (st : ServerState) : ServerState × List (Conn × OutMsg) :=
  match mapGet senderWs st.clientToRoom with
  | none =>
    (st, [(senderWs, OutMsg.errorEnv "You must join a room before sending messages.")])
  | some roomId =>
    if roomId = "" then
      (st, [(senderWs, OutMsg.errorEnv "You must join a room before sending messages.")])
    else
      match mapGet roomId st.rooms with
      | none => (st, [])
      | some room =>
        (st, (room.filter (fun c => decide (c ≠ senderWs) && isOpen c)).map
          (fun c => (c, OutMsg.forwardEnv message)))

/-- Truthiness of the optional string field `message.roomId`: absent and
`""` are falsy. -/
def jsTruthy : Option String → Bool
  | none => false
  | some s => decide (s ≠ "")

/-- The dispatch guard `message.type === "joinRoom" && message.roomId`. -/
def isValidJoin (m : Envelope) : Bool :=
  decide (m.type = some (JVal.jstr "joinRoom")) && jsTruthy m.roomId

/-- The `ws.on("message")` callback of the room server: a `JSON.parse`
failure (`raw = none`) draws the invalid-JSON error reply; a message
passing the join guard goes to `handleJoinRoom` (which sends nothing);
every other message goes to `broadcastToRoom`. -/
def onMessage (isOpen : Conn → Bool) (ws : Conn) (raw : Option Envelope)
    (st : ServerState) : ServerState × List (Conn × OutMsg) :=
  match raw with
  | none => (st, [(ws, OutMsg.errorEnv "Invalid JSON format.")])
  | some message =>
    if isValidJoin message then
      (handleJoinRoom ws (message.roomId.getD "") st, [])
    else
      broadcastToRoom isOpen ws message st

/-- `handleDisconnect(ws)`, run on both the close and the error event: a
falsy room lookup is a no-op; otherwise the reverse mapping is deleted,
the client is removed from the room's member set, and the room entry is
deleted when the set became empty. -/
def handleDisconnect (ws : Conn) (st : ServerState) : ServerState :=
  match mapGet ws st.clientToRoom with
  | none => st
  | some roomId =>
    if roomId = "" then st
    else
      match mapGet roomId st.rooms with
      | none => { st with clientToRoom := mapDelete ws st.clientToRoom }
      | some room =>
        if setDelete ws room = [] then
          { rooms := mapDelete roomId st.rooms
            clientToRoom := mapDelete ws st.clientToRoom }
        else
          { rooms := mapSet roomId (setDelete ws room) st.rooms
            clientToRoom := mapDelete ws st.clientToRoom }

/-- The states the room server can reach from its initial empty
directory through its event handlers (message, and close or error,
which both run `handleDisconnect`). -/
inductive Reachable : ServerState → Prop where
  | init : Reachable ⟨[], []⟩
  | message (isOpen : Conn → Bool) (ws : Conn) (raw : Option Envelope)
      {s : ServerState} : Reachable s → Reachable (onMessage isOpen ws raw s).1
  | disconnect (ws : Conn) {s : ServerState} :
      Reachable s → Reachable (handleDisconnect ws s)

/-- Connection `c` appears in the member set stored for room `r`. -/
def MemberOf (st : ServerState) (r : RoomId) (c : Conn) : Prop :=
  ∃ room, mapGet r st.rooms = some room ∧ c ∈ room

/-- The directory invariant: forward and reverse maps agree, no stored
member set is empty, and the falsy room id `""` occurs neither as a key
of `rooms` nor as a value of `clientToRoom`. -/
def Inv (st : ServerState) : Prop :=
  (∀ c r, MemberOf st r c ↔ mapGet c st.clientToRoom = some r) ∧
  (∀ r room, mapGet r st.rooms = some room → room ≠ []) ∧
  mapGet "" st.rooms = none ∧
  (∀ c, mapGet c st.clientToRoom ≠ some "")

theorem mapGet_mapDelete_self {α β : Type} [DecidableEq α] (k : α)
    (l : List (α × β)) : mapGet k (mapDelete k l) = none := by
  induction l with
  | nil => rfl
  | cons p l ih =>
    obtain ⟨a, b⟩ := p
    by_cases h : a = k
    · simpa [mapDelete, h] using ih
    · simp [mapDelete, h, mapGet, ih]

theorem mapGet_mapDelete_ne {α β : Type} [DecidableEq α] {k k' : α}
    (h : k' ≠ k) (l : List (α × β)) : mapGet k' (mapDelete k l) = mapGet k' l := by
  induction l with
  | nil => rfl
  | cons p l ih =>
    obtain ⟨a, b⟩ := p
    by_cases ha : a = k
    · subst ha
      have hne : ¬ a = k' := fun e => h e.symm
      simp [mapDelete, mapGet, hne, ih]
    · simp [mapDelete, ha, mapGet, ih]

theorem mapGet_mapSet_self {α β : Type} [DecidableEq α] (k : α) (v : β)
    (l : List (α × β)) : mapGet k (mapSet k v l) = some v := by
  simp [mapSet, mapGet]

theorem mapGet_mapSet_ne {α β : Type} [DecidableEq α] {k k' : α} (h : k' ≠ k)
    (v : β) (l : List (α × β)) : mapGet k' (mapSet k v l) = mapGet k' l := by
  have : k ≠ k' := fun e => h e.symm
  simp [mapSet, mapGet, this, mapGet_mapDelete_ne h]

theorem mem_setAdd {c d : Conn} {ms : List Conn} :
    c ∈ setAdd d ms ↔ c ∈ ms ∨ c = d := by
  by_cases h : d ∈ ms
  · simp only [setAdd, if_pos h]
    exact ⟨Or.inl, fun hc => hc.elim id (fun e => e ▸ h)⟩
  · simp [setAdd, if_neg h]

theorem setAdd_ne_nil (d : Conn) (ms : List Conn) : setAdd d ms ≠ [] := by
  unfold setAdd
  split
  · rename_i h
    intro hnil
    rw [hnil] at h
    cases h
  · simp

theorem mem_setDelete {c d : Conn} {ms : List Conn} :
    c ∈ setDelete d ms ↔ c ∈ ms ∧ c ≠ d := by
  induction ms with
  | nil => simp [setDelete]
  | cons e l ih =>
    simp only [setDelete]
    by_cases h : e = d
    · rw [if_pos h]
      rw [ih]
      simp only [List.mem_cons]
      constructor
      · rintro ⟨hc, hne⟩
        exact ⟨Or.inr hc, hne⟩
      · rintro ⟨hc | hc, hne⟩
        · exact absurd (hc.trans h) hne
        · exact ⟨hc, hne⟩
    · rw [if_neg h]
      simp only [List.mem_cons, ih]
      constructor
      · rintro (rfl | ⟨hc, hne⟩)
        · exact ⟨Or.inl rfl, h⟩
        · exact ⟨Or.inr hc, hne⟩
      · rintro ⟨rfl | hc, hne⟩
        · exact Or.inl rfl
        · exact Or.inr ⟨hc, hne⟩

theorem broadcastToRoom_fst (isOpen : Conn → Bool) (ws : Conn) (m : Envelope)
    (st : ServerState) : (broadcastToRoom isOpen ws m st).1 = st := by
  unfold broadcastToRoom
  split
  · rfl
  · split
    · rfl
    · split
      · rfl
      · rfl

theorem inv_handleJoinRoom {st : ServerState} {ws : Conn} {rid : RoomId}
    (hrid : rid ≠ "") (hInv : Inv st) : Inv (handleJoinRoom ws rid st) := by
  obtain ⟨hcons, hne, hempty, hval⟩ := hInv
  cases hws : mapGet ws st.clientToRoom with
  | some r0 =>
    unfold handleJoinRoom
    rw [hws]
    exact ⟨hcons, hne, hempty, hval⟩
  | none =>
    have hwsNotMem : ∀ r, ¬ MemberOf st r ws := by
      intro r hm
      have := (hcons ws r).mp hm
      rw [hws] at this
      cases this
    unfold handleJoinRoom
    rw [hws]
    refine ⟨?_, ?_, ?_, ?_⟩
    · intro c r
      by_cases hc : c = ws
      · subst hc
        rw [show mapGet c (mapSet c rid st.clientToRoom) = some rid from
          mapGet_mapSet_self c rid st.clientToRoom]
        constructor
        · rintro ⟨room, hroom, hmem⟩
          by_cases hr : r = rid
          · rw [hr]
          · rw [mapGet_mapSet_ne hr] at hroom
            exact absurd ⟨room, hroom, hmem⟩ (hwsNotMem r)
        · intro h
          have hr : rid = r := by injection h
          subst hr
          exact ⟨setAdd c ((mapGet rid st.rooms).getD []),
            mapGet_mapSet_self rid _ st.rooms, mem_setAdd.mpr (Or.inr rfl)⟩
      · rw [mapGet_mapSet_ne hc]
        by_cases hr : r = rid
        · subst hr
          have hroom' : mapGet r (mapSet r (setAdd ws ((mapGet r st.rooms).getD []))
              st.rooms) = some (setAdd ws ((mapGet r st.rooms).getD [])) :=
            mapGet_mapSet_self r _ st.rooms
          constructor
          · rintro ⟨room, hroom, hmem⟩
            rw [hroom'] at hroom
            have hmem' : c ∈ setAdd ws ((mapGet r st.rooms).getD []) := by
              injection hroom with h'
              rw [← h'] at hmem
              exact hmem
            rcases mem_setAdd.mp hmem' with hin | hcw
            · cases hG : mapGet r st.rooms with
              | none =>
                rw [hG] at hin
                cases hin
              | some room0 =>
                rw [hG] at hin
                exact (hcons c r).mp ⟨room0, hG, hin⟩
            · exact absurd hcw hc
          · intro h
            obtain ⟨room0, hG, hin⟩ := (hcons c r).mpr h
            refine ⟨setAdd ws ((mapGet r st.rooms).getD []), hroom', ?_⟩
            rw [hG]
            exact mem_setAdd.mpr (Or.inl hin)
        · constructor
          · rintro ⟨room, hroom, hmem⟩
            rw [mapGet_mapSet_ne hr] at hroom
            exact (hcons c r).mp ⟨room, hroom, hmem⟩
          · intro h
            obtain ⟨room, hroom, hmem⟩ := (hcons c r).mpr h
            exact ⟨room, by rw [mapGet_mapSet_ne hr]; exact hroom, hmem⟩
    · intro r room hroom
      by_cases hr : r = rid
      · subst hr
        rw [mapGet_mapSet_self] at hroom
        intro hnil
        have := setAdd_ne_nil ws ((mapGet r st.rooms).getD [])
        apply this
        injection hroom with h'
        rw [h', hnil]
      · rw [mapGet_mapSet_ne hr] at hroom
        exact hne r room hroom
    · rw [mapGet_mapSet_ne (fun e => hrid e.symm)]
      exact hempty
    · intro c
      by_cases hc : c = ws
      · subst hc
        rw [mapGet_mapSet_self]
        intro h
        apply hrid
        injection h
      · rw [mapGet_mapSet_ne hc]
        exact hval c

theorem inv_handleDisconnect {st : ServerState} (ws : Conn) (hInv : Inv st) :
    Inv (handleDisconnect ws st) := by
  obtain ⟨hcons, hne, hempty, hval⟩ := hInv
  cases hws : mapGet ws st.clientToRoom with
  | none =>
    unfold handleDisconnect
    rw [hws]
    exact ⟨hcons, hne, hempty, hval⟩
  | some rid =>
    have hrid : rid ≠ "" := fun e => hval ws (e ▸ hws)
    obtain ⟨room, hroom, hwsroom⟩ := (hcons ws rid).mpr hws
    simp only [handleDisconnect, hws, hroom, if_neg hrid]
    by_cases hdel : setDelete ws room = []
    · rw [if_pos hdel]
      have hallws : ∀ c ∈ room, c = ws := by
        intro c hc
        by_contra hne'
        have : c ∈ setDelete ws room := mem_setDelete.mpr ⟨hc, hne'⟩
        rw [hdel] at this
        cases this
      refine ⟨?_, ?_, ?_, ?_⟩
      · intro c r
        constructor
        · rintro ⟨room', hroom', hmem⟩
          by_cases hr : r = rid
          · subst hr
            rw [mapGet_mapDelete_self] at hroom'
            cases hroom'
          · rw [mapGet_mapDelete_ne hr] at hroom'
            have hcr := (hcons c r).mp ⟨room', hroom', hmem⟩
            by_cases hc : c = ws
            · subst hc
              rw [hws] at hcr
              injection hcr with h'
              exact absurd h'.symm hr
            · rw [mapGet_mapDelete_ne hc]
              exact hcr
        · intro h
          by_cases hc : c = ws
          · subst hc
            rw [mapGet_mapDelete_self] at h
            cases h
          · rw [mapGet_mapDelete_ne hc] at h
            obtain ⟨room', hroom', hmem⟩ := (hcons c r).mpr h
            by_cases hr : r = rid
            · subst hr
              rw [hroom] at hroom'
              injection hroom' with h'
              rw [← h'] at hmem
              exact absurd (hallws c hmem) hc
            · exact ⟨room', by rw [mapGet_mapDelete_ne hr]; exact hroom', hmem⟩
      · intro r room' hroom'
        by_cases hr : r = rid
        · subst hr
          rw [mapGet_mapDelete_self] at hroom'
          cases hroom'
        · rw [mapGet_mapDelete_ne hr] at hroom'
          exact hne r room' hroom'
      · by_cases h0 : ("" : RoomId) = rid
        · rw [h0, mapGet_mapDelete_self]
        · rw [mapGet_mapDelete_ne h0]
          exact hempty
      · intro c
        by_cases hc : c = ws
        · subst hc
          rw [mapGet_mapDelete_self]
          intro h
          cases h
        · rw [mapGet_mapDelete_ne hc]
          exact hval c
    · rw [if_neg hdel]
      refine ⟨?_, ?_, ?_, ?_⟩
      · intro c r
        constructor
        · rintro ⟨room', hroom', hmem⟩
          by_cases hr : r = rid
          · subst hr
            rw [mapGet_mapSet_self] at hroom'
            injection hroom' with h'
            rw [← h'] at hmem
            obtain ⟨hcr, hcw⟩ := mem_setDelete.mp hmem
            rw [mapGet_mapDelete_ne hcw]
            exact (hcons c r).mp ⟨room, hroom, hcr⟩
          · rw [mapGet_mapSet_ne hr] at hroom'
            have hcr := (hcons c r).mp ⟨room', hroom', hmem⟩
            by_cases hc : c = ws
            · subst hc
              rw [hws] at hcr
              injection hcr with h'
              exact absurd h'.symm hr
            · rw [mapGet_mapDelete_ne hc]
              exact hcr
        · intro h
          by_cases hc : c = ws
          · subst hc
            rw [mapGet_mapDelete_self] at h
            cases h
          · rw [mapGet_mapDelete_ne hc] at h
            obtain ⟨room', hroom', hmem⟩ := (hcons c r).mpr h
            by_cases hr : r = rid
            · subst hr
              rw [hroom] at hroom'
              injection hroom' with h'
              rw [← h'] at hmem
              exact ⟨setDelete ws room, mapGet_mapSet_self r _ st.rooms,
                mem_setDelete.mpr ⟨hmem, hc⟩⟩
            · exact ⟨room', by rw [mapGet_mapSet_ne hr]; exact hroom', hmem⟩
      · intro r room' hroom'
        by_cases hr : r = rid
        · subst hr
          rw [mapGet_mapSet_self] at hroom'
          injection hroom' with h'
          rw [← h']
          exact hdel
        · rw [mapGet_mapSet_ne hr] at hroom'
          exact hne r room' hroom'
      · rw [mapGet_mapSet_ne (fun e => hrid e.symm)]
        exact hempty
      · intro c
        by_cases hc : c = ws
        · subst hc
          rw [mapGet_mapDelete_self]
          intro h
          cases h
        · rw [mapGet_mapDelete_ne hc]
          exact hval c

theorem isValidJoin_roomId {m : Envelope} (hj : isValidJoin m = true) :
    m.roomId.getD "" ≠ "" := by
  unfold isValidJoin at hj
  rw [Bool.and_eq_true] at hj
  obtain ⟨-, ht⟩ := hj
  cases hmr : m.roomId with
  | none =>
    rw [hmr] at ht
    simp [jsTruthy] at ht
  | some s =>
    rw [hmr] at ht
    simp only [jsTruthy, decide_eq_true_eq] at ht
    exact ht

theorem inv_onMessage {st : ServerState} (isOpen : Conn → Bool) (ws : Conn)
    (raw : Option Envelope) (hInv : Inv st) : Inv (onMessage isOpen ws raw st).1 := by
  cases raw with
  | none => exact hInv
  | some m =>
    by_cases hj : isValidJoin m = true
    · have h1 : (onMessage isOpen ws (some m) st).1 =
          handleJoinRoom ws (m.roomId.getD "") st := by
        simp only [onMessage, if_pos hj]
      rw [h1]
      exact inv_handleJoinRoom (isValidJoin_roomId hj) hInv
    · have h1 : (onMessage isOpen ws (some m) st).1 =
          (broadcastToRoom isOpen ws m st).1 := by
        simp only [onMessage, if_neg hj]
      rw [h1, broadcastToRoom_fst]
      exact hInv

theorem inv_init : Inv ⟨[], []⟩ := by
  refine ⟨?_, ?_, rfl, ?_⟩
  · intro c r
    constructor
    · rintro ⟨room, hroom, -⟩
      simp [mapGet] at hroom
    · intro h
      simp [mapGet] at h
  · intro r room h
    simp [mapGet] at h
  · intro c
    simp [mapGet]

theorem reachable_inv {s : ServerState} (h : Reachable s) : Inv s := by
  induction h with
  | init => exact inv_init
  | message isOpen ws raw _ ih => exact inv_onMessage isOpen ws raw ih
  | disconnect ws _ ih => exact inv_handleDisconnect ws ih

theorem onMessage_not_join (isOpen : Conn → Bool) (ws : Conn) (st : ServerState)
    {m : Envelope} (hj : isValidJoin m = false) :
    onMessage isOpen ws (some m) st = broadcastToRoom isOpen ws m st := by
  have hj' : ¬ (isValidJoin m = true) := by simp [hj]
  simp only [onMessage, if_neg hj']

/-! The embedding of `src/index.ts` (compiled to `dist/index.js`): the
room-less relay.  Its message handler never mutates the `peers` set, so
it is embedded as a pure function from the current peer list to the list
of sends. -/

namespace IndexTs

/-- A decoded inbound message of the room-less relay: the `type` field
and the opaque rest of the envelope. -/
structure IEnvelope where
  type : Option JVal
  payload : String
deriving DecidableEq

/-- One outbound send of the room-less relay. -/
inductive IOut where
  | errorEnv (message : String)
  | forwardEnv (m : IEnvelope)
deriving DecidableEq

/-- `broadcastToOthers(sender, message)`: forward to every other peer
whose connection is open. -/
def broadcastToOthers (peers : List Conn) (isOpen : Conn → Bool) (sender : Conn)
    (message : IEnvelope) : List (Conn × IOut) :=
  (peers.filter (fun c => decide (c ≠ sender) && isOpen c)).map
    (fun c => (c, IOut.forwardEnv message))

/-- The `switch` cases that broadcast. -/
def recognized (t : String) : Bool :=
  decide (t = "createOffer") || decide (t = "createAnswer") ||
    decide (t = "iceCandidate")

/-- The `ws.on("message")` callback of `src/index.ts`: parse-failure
reply, then the `typeof message.type !== "string"` guard, then the
`switch` on the type with an unknown-type error in the default case. -/
def onMessage (peers : List Conn) (isOpen : Conn → Bool) (ws : Conn)
    (raw : Option IEnvelope) : List (Conn × IOut) :=
  match raw with
  | none => [(ws, IOut.errorEnv "Invalid JSON format")]
  | some message =>
    match message.type with
    | some (JVal.jstr t) =>
      if recognized t then broadcastToOthers peers isOpen ws message
      else [(ws, IOut.errorEnv ("Unknown message type: " ++ t))]
    | _ => [(ws, IOut.errorEnv "Missing or invalid 'type' field")]

end IndexTs

/-! Concrete fixtures: connections 1 and 2 join room `"r1"` from the
initial empty directory, with every connection open.  These reachable
states instantiate the theorems below. -/

/-- A transport in which every connection is open. -/
def wsOpen : Conn → Bool := fun _ => true

/-- The envelope `{type: "joinRoom", roomId: r}`. -/
def joinEnv (r : RoomId) : Envelope :=
  { type := some (JVal.jstr "joinRoom"), roomId := some r, payload := "" }

/-- The envelope `{type: "createOffer", sdp: "abc"}`. -/
def offerEnv : Envelope :=
  { type := some (JVal.jstr "createOffer"), roomId := none, payload := "abc" }

/-- A JSON object with no `type` field. -/
def noTypeEnv : Envelope := { type := none, roomId := none, payload := "x" }

/-- The envelope `{type: "chat"}`: a string type outside the recognized
values. -/
def bogusEnv : Envelope :=
  { type := some (JVal.jstr "chat"), roomId := none, payload := "x" }

/-- The envelope `{type: "joinRoom"}` with no `roomId` field. -/
def joinNoRoomEnv : Envelope :=
  { type := some (JVal.jstr "joinRoom"), roomId := none, payload := "" }

/-- The envelope `{type: "joinRoom", roomId: ""}`. -/
def emptyJoinEnv : Envelope :=
  { type := some (JVal.jstr "joinRoom"), roomId := some "", payload := "" }

/-- The initial empty directory. -/
def st0 : ServerState := ⟨[], []⟩

/-- The directory after connection 1 joins room `"r1"`. -/
def st1 : ServerState := (onMessage wsOpen 1 (some (joinEnv "r1")) st0).1

/-- The directory after connections 1 and 2 join room `"r1"`. -/
def st2 : ServerState := (onMessage wsOpen 2 (some (joinEnv "r1")) st1).1

theorem reachable_st1 : Reachable st1 :=
  Reachable.message wsOpen 1 (some (joinEnv "r1")) Reachable.init

theorem reachable_st2 : Reachable st2 :=
  Reachable.message wsOpen 2 (some (joinEnv "r1")) reachable_st1

/-- C1: In every reachable state of the room directory, a connection
appears in a room's stored member set iff the reverse lookup
`clientToRoom` maps it to that room id, and consequently each connection
is a member of at most one room.  Every operation preserves this:
`Reachable` is closed under `onMessage` (which covers `handleJoinRoom`
and `broadcastToRoom`) and under `handleDisconnect` (run on both the
close and the error event). -/
theorem membership_consistency_unique (s : ServerState) (hs : Reachable s) :
    (∀ c r, MemberOf s r c ↔ mapGet c s.clientToRoom = some r) ∧
    (∀ c r₁ r₂, MemberOf s r₁ c → MemberOf s r₂ c → r₁ = r₂) := by
  obtain ⟨hcons, -, -, -⟩ := reachable_inv hs
  refine ⟨hcons, ?_⟩
  intro c r₁ r₂ h₁ h₂
  have e₁ := (hcons c r₁).mp h₁
  have e₂ := (hcons c r₂).mp h₂
  rw [e₁] at e₂
  injection e₂

theorem membership_consistency_unique_witness :
    MemberOf st2 "r1" 2 ↔ mapGet 2 st2.clientToRoom = some "r1" :=
  (membership_consistency_unique st2 reachable_st2).1 2 "r1"

/-- C2: In every reachable state no room entry holds an empty member
set, and when a disconnect (or transport error, which runs the same
cleanup) removes the last member of a room, that room's entry is gone
from the directory immediately after. -/
theorem room_cleanup (s : ServerState) (hs : Reachable s) :
    (∀ r room, mapGet r s.rooms = some room → room ≠ []) ∧
    (∀ ws r, mapGet ws s.clientToRoom = some r → mapGet r s.rooms = some [ws] →
      mapGet r (handleDisconnect ws s).rooms = none) := by
  obtain ⟨hcons, hne, hempty, hval⟩ := reachable_inv hs
  refine ⟨hne, ?_⟩
  intro ws r hws hroom
  have hrid : r ≠ "" := fun e => hval ws (e ▸ hws)
  have hdel : setDelete ws [ws] = [] := by simp [setDelete]
  simp only [handleDisconnect, hws, hroom, if_neg hrid, hdel, if_pos]
  exact mapGet_mapDelete_self r s.rooms

theorem room_cleanup_witness : mapGet "r1" (handleDisconnect 1 st1).rooms = none :=
  (room_cleanup st1 reachable_st1).2 1 "r1" (by decide) (by decide)

/-- C3: A connection with no room assignment in the reverse lookup that
sends any decoded message other than a valid join receives exactly one
error envelope with message "You must join a room before sending
messages.", nothing is sent to any other connection, and the directory
is unchanged (the result's state component is `st` itself). -/
theorem join_before_send (st : ServerState) (isOpen : Conn → Bool) (ws : Conn)
    (m : Envelope) (hns : mapGet ws st.clientToRoom = none)
    (hnj : isValidJoin m = false) :
    onMessage isOpen ws (some m) st =
      (st, [(ws, OutMsg.errorEnv "You must join a room before sending messages.")]) := by
  rw [onMessage_not_join isOpen ws st hnj]
  simp only [broadcastToRoom, hns]

theorem join_before_send_witness :
    onMessage wsOpen 1 (some offerEnv) st0 =
      (st0, [(1, OutMsg.errorEnv "You must join a room before sending messages.")]) :=
  join_before_send st0 wsOpen 1 offerEnv (by decide) (by decide)

/-- C4: For a sender with a room assignment in a reachable state, the
broadcast sends the re-encoded message to exactly the members of the
sender's room that are distinct from the sender and whose connection is
open (the filter keeps precisely those); in particular every recipient
differs from the sender and is open, so the sender never receives its
own broadcast and non-open members are skipped without affecting the
rest. -/
theorem broadcast_fanout (s : ServerState) (hs : Reachable s)
    (isOpen : Conn → Bool) (ws : Conn) (r : RoomId) (m : Envelope)
    (hws : mapGet ws s.clientToRoom = some r) :
    ∃ room, mapGet r s.rooms = some room ∧
      broadcastToRoom isOpen ws m s =
        (s, (room.filter (fun c => decide (c ≠ ws) && isOpen c)).map
          (fun c => (c, OutMsg.forwardEnv m))) ∧
      ∀ p ∈ (broadcastToRoom isOpen ws m s).2, p.1 ≠ ws ∧ isOpen p.1 = true := by
  obtain ⟨hcons, -, -, hval⟩ := reachable_inv hs
  have hrid : r ≠ "" := fun e => hval ws (e ▸ hws)
  obtain ⟨room, hroom, -⟩ := (hcons ws r).mpr hws
  have heq : broadcastToRoom isOpen ws m s =
      (s, (room.filter (fun c => decide (c ≠ ws) && isOpen c)).map
        (fun c => (c, OutMsg.forwardEnv m))) := by
    simp only [broadcastToRoom, hws, hroom, if_neg hrid]
  refine ⟨room, hroom, heq, ?_⟩
  intro p hp
  rw [heq] at hp
  simp only [List.mem_map, List.mem_filter] at hp
  obtain ⟨c, ⟨hcr, hcf⟩, rfl⟩ := hp
  rw [Bool.and_eq_true, decide_eq_true_eq] at hcf
  exact ⟨hcf.1, hcf.2⟩

theorem broadcast_fanout_witness :
    ∃ room, mapGet "r1" st2.rooms = some room ∧
      broadcastToRoom wsOpen 1 offerEnv st2 =
        (st2, (room.filter (fun c => decide (c ≠ 1) && wsOpen c)).map
          (fun c => (c, OutMsg.forwardEnv offerEnv))) ∧
      ∀ p ∈ (broadcastToRoom wsOpen 1 offerEnv st2).2, p.1 ≠ 1 ∧ wsOpen p.1 = true :=
  broadcast_fanout st2 reachable_st2 wsOpen 1 "r1" offerEnv (by decide)

/-- C5 counterexample: in the room server, a sender already in a room
who sends a JSON object with no `type` field has that object broadcast
to the other room member and receives no error envelope at all — the
router of the room server does not validate the `type` field, so the
claim fails as stated. -/
theorem envelope_validation_cex :
    (onMessage wsOpen 1 (some noTypeEnv) st2).2 = [(2, OutMsg.forwardEnv noTypeEnv)] ∧
    ∀ p ∈ (onMessage wsOpen 1 (some noTypeEnv) st2).2, p.1 ≠ 1 := by
  decide

/-- C5 (amended): the `type`-field validation lives in the
`src/index.ts` router, where a decoded message whose `type` is missing
or not a string draws exactly one error envelope back to the sender and
nothing else; the room server's router performs no such validation and
routes every such message to `broadcastToRoom`, which leaves the
directory unchanged and, for an unassigned sender, replies with the
join-before-send error instead. -/
theorem envelope_validation_amended (peers : List Conn) (isOpen : Conn → Bool)
    (ws : Conn) (m : IndexTs.IEnvelope) (st : ServerState) (m2 : Envelope)
    (hm : ∀ t, m.type ≠ some (JVal.jstr t))
    (hm2 : ∀ t, m2.type ≠ some (JVal.jstr t)) :
    IndexTs.onMessage peers isOpen ws (some m) =
      [(ws, IndexTs.IOut.errorEnv "Missing or invalid 'type' field")] ∧
    onMessage isOpen ws (some m2) st = broadcastToRoom isOpen ws m2 st ∧
    (onMessage isOpen ws (some m2) st).1 = st ∧
    (mapGet ws st.clientToRoom = none →
      onMessage isOpen ws (some m2) st =
        (st, [(ws, OutMsg.errorEnv "You must join a room before sending messages.")])) := by
  have hIdx : IndexTs.onMessage peers isOpen ws (some m) =
      [(ws, IndexTs.IOut.errorEnv "Missing or invalid 'type' field")] := by
    cases hmt : m.type with
    | none => simp [IndexTs.onMessage, hmt]
    | some v =>
      cases v with
      | jstr t => exact absurd hmt (hm t)
      | jother => simp [IndexTs.onMessage, hmt]
  have hj : isValidJoin m2 = false := by
    unfold isValidJoin
    cases hmt : m2.type with
    | none => simp
    | some v =>
      cases v with
      | jstr t => exact absurd hmt (hm2 t)
      | jother => simp
  have hroute := onMessage_not_join isOpen ws st hj
  refine ⟨hIdx, hroute, by rw [hroute, broadcastToRoom_fst], ?_⟩
  intro hns
  rw [hroute]
  simp only [broadcastToRoom, hns]

theorem envelope_validation_amended_witness :
    IndexTs.onMessage [1, 2] wsOpen 1 (some ⟨none, "x"⟩) =
      [(1, IndexTs.IOut.errorEnv "Missing or invalid 'type' field")] ∧
    onMessage wsOpen 1 (some noTypeEnv) st0 = broadcastToRoom wsOpen 1 noTypeEnv st0 ∧
    (onMessage wsOpen 1 (some noTypeEnv) st0).1 = st0 ∧
    (mapGet 1 st0.clientToRoom = none →
      onMessage wsOpen 1 (some noTypeEnv) st0 =
        (st0, [(1, OutMsg.errorEnv "You must join a room before sending messages.")])) :=
  envelope_validation_amended [1, 2] wsOpen 1 ⟨none, "x"⟩ st0 noTypeEnv
    (by intro t h; exact Option.noConfusion h)
    (by intro t h; simp [noTypeEnv] at h)

/-- C6 counterexample: in the room server, a sender already in a room
who sends `{type: "chat"}` — a string type outside the recognized
values — has the message broadcast to the other room member and receives
no error naming the type, so the claim fails as stated. -/
theorem unknown_type_cex :
    (onMessage wsOpen 1 (some bogusEnv) st2).2 = [(2, OutMsg.forwardEnv bogusEnv)] ∧
    ∀ p ∈ (onMessage wsOpen 1 (some bogusEnv) st2).2, p.1 ≠ 1 := by
  decide

/-- C6 (amended): the unknown-type rejection lives in the `src/index.ts`
router, which replies to the sender with an error envelope naming the
unknown type and broadcasts nothing; the room server's router has no
default case and routes every non-join message — recognized or not — to
`broadcastToRoom`, leaving the directory unchanged. -/
theorem unknown_type_amended (peers : List Conn) (isOpen : Conn → Bool) (ws : Conn)
    (t : String) (payload : String) (st : ServerState) (m2 : Envelope)
    (ht : IndexTs.recognized t = false) (hne : t ≠ "joinRoom")
    (hm2 : m2.type = some (JVal.jstr t)) :
    IndexTs.onMessage peers isOpen ws (some ⟨some (JVal.jstr t), payload⟩) =
      [(ws, IndexTs.IOut.errorEnv ("Unknown message type: " ++ t))] ∧
    onMessage isOpen ws (some m2) st = broadcastToRoom isOpen ws m2 st ∧
    (onMessage isOpen ws (some m2) st).1 = st := by
  have hIdx : IndexTs.onMessage peers isOpen ws (some ⟨some (JVal.jstr t), payload⟩) =
      [(ws, IndexTs.IOut.errorEnv ("Unknown message type: " ++ t))] := by
    simp [IndexTs.onMessage, ht]
  have hj : isValidJoin m2 = false := by
    unfold isValidJoin
    rw [hm2]
    simp [hne]
  have hroute := onMessage_not_join isOpen ws st hj
  exact ⟨hIdx, hroute, by rw [hroute, broadcastToRoom_fst]⟩

theorem unknown_type_amended_witness :
    IndexTs.onMessage [1, 2] wsOpen 1 (some ⟨some (JVal.jstr "chat"), "x"⟩) =
      [(1, IndexTs.IOut.errorEnv ("Unknown message type: " ++ "chat"))] ∧
    onMessage wsOpen 1 (some bogusEnv) st0 = broadcastToRoom wsOpen 1 bogusEnv st0 ∧
    (onMessage wsOpen 1 (some bogusEnv) st0).1 = st0 :=
  unknown_type_amended [1, 2] wsOpen 1 "chat" "x" st0 bogusEnv (by decide) (by decide) rfl

/-- C7 counterexample: a sender already in a room who sends
`{type: "joinRoom"}` without a `roomId` field receives no error
envelope; instead the joinRoom envelope is broadcast to the other room
member, so the claim that the router replies with an error fails as
stated (the directory is indeed unchanged and `handleJoinRoom` is not
invoked). -/
theorem join_without_roomId_cex :
    (onMessage wsOpen 1 (some joinNoRoomEnv) st2).2 =
      [(2, OutMsg.forwardEnv joinNoRoomEnv)] ∧
    ∀ p ∈ (onMessage wsOpen 1 (some joinNoRoomEnv) st2).2, p.1 ≠ 1 := by
  decide

/-- C7 (amended): a `joinRoom` message without a `roomId` field fails
the truthiness guard and is routed to the broadcast path rather than
being treated as a decode failure: `handleJoinRoom` is not invoked and
the directory is unchanged, and only an unassigned sender receives an
error envelope (the join-before-send one); an assigned sender's message
is broadcast to its room. -/
theorem join_without_roomId_amended (isOpen : Conn → Bool) (ws : Conn)
    (st : ServerState) (m : Envelope)
    (_hmt : m.type = some (JVal.jstr "joinRoom")) (hmr : m.roomId = none) :
    onMessage isOpen ws (some m) st = broadcastToRoom isOpen ws m st ∧
    (onMessage isOpen ws (some m) st).1 = st ∧
    (mapGet ws st.clientToRoom = none →
      onMessage isOpen ws (some m) st =
        (st, [(ws, OutMsg.errorEnv "You must join a room before sending messages.")])) := by
  have hj : isValidJoin m = false := by
    unfold isValidJoin
    rw [hmr]
    simp [jsTruthy]
  have hroute := onMessage_not_join isOpen ws st hj
  refine ⟨hroute, by rw [hroute, broadcastToRoom_fst], ?_⟩
  intro hns
  rw [hroute]
  simp only [broadcastToRoom, hns]

theorem join_without_roomId_amended_witness :
    onMessage wsOpen 1 (some joinNoRoomEnv) st0 =
      broadcastToRoom wsOpen 1 joinNoRoomEnv st0 ∧
    (onMessage wsOpen 1 (some joinNoRoomEnv) st0).1 = st0 ∧
    (mapGet 1 st0.clientToRoom = none →
      onMessage wsOpen 1 (some joinNoRoomEnv) st0 =
        (st0, [(1, OutMsg.errorEnv "You must join a room before sending messages.")])) :=
  join_without_roomId_amended wsOpen 1 st0 joinNoRoomEnv rfl rfl

/-- C8: A connection that already has a room assignment invoking
`handleJoinRoom` with any room id leaves the whole directory state
unchanged — forward and reverse maps alike — and, through the router, a
valid join message from such a connection produces no outbound send of
any kind. -/
theorem duplicate_join_noop (st : ServerState) (ws : Conn) (r₀ : RoomId)
    (hws : mapGet ws st.clientToRoom = some r₀) :
    (∀ rid, handleJoinRoom ws rid st = st) ∧
    (∀ isOpen m, isValidJoin m = true → onMessage isOpen ws (some m) st = (st, [])) := by
  have h1 : ∀ rid, handleJoinRoom ws rid st = st := by
    intro rid
    simp only [handleJoinRoom, hws]
  refine ⟨h1, ?_⟩
  intro isOpen m hm
  simp only [onMessage, if_pos hm, h1]

theorem duplicate_join_noop_witness :
    handleJoinRoom 1 "r2" st1 = st1 ∧
    onMessage wsOpen 1 (some (joinEnv "r2")) st1 = (st1, []) :=
  ⟨(duplicate_join_noop st1 1 "r1" (by decide)).1 "r2",
   (duplicate_join_noop st1 1 "r1" (by decide)).2 wsOpen (joinEnv "r2") (by decide)⟩

/-- C9: A message with type `"joinRoom"` and `roomId` equal to `""` is
not treated as a join: the falsy guard routes it to the broadcast path,
so an unassigned sender gets the join-before-send error and an assigned
sender (whose room id is non-falsy and present, as in every reachable
state) has the joinRoom envelope broadcast to its room; and in every
reachable state no room keyed `""` exists and no connection is assigned
to `""`. -/
theorem empty_roomId_join (isOpen : Conn → Bool) (ws : Conn) (st : ServerState)
    (m : Envelope) (s' : ServerState)
    (_hmt : m.type = some (JVal.jstr "joinRoom")) (hmr : m.roomId = some "") :
    onMessage isOpen ws (some m) st = broadcastToRoom isOpen ws m st ∧
    (mapGet ws st.clientToRoom = none →
      onMessage isOpen ws (some m) st =
        (st, [(ws, OutMsg.errorEnv "You must join a room before sending messages.")])) ∧
    (∀ r room, mapGet ws st.clientToRoom = some r → r ≠ "" →
      mapGet r st.rooms = some room →
      onMessage isOpen ws (some m) st =
        (st, (room.filter (fun c => decide (c ≠ ws) && isOpen c)).map
          (fun c => (c, OutMsg.forwardEnv m)))) ∧
    (Reachable s' → mapGet "" s'.rooms = none ∧
      ∀ c, mapGet c s'.clientToRoom ≠ some "") := by
  have hj : isValidJoin m = false := by
    unfold isValidJoin
    rw [hmr]
    simp [jsTruthy]
  have hroute := onMessage_not_join isOpen ws st hj
  refine ⟨hroute, ?_, ?_, ?_⟩
  · intro hns
    rw [hroute]
    simp only [broadcastToRoom, hns]
  · intro r room hws hr hroom
    rw [hroute]
    simp only [broadcastToRoom, hws, hroom, if_neg hr]
  · intro hs'
    obtain ⟨-, -, hempty, hval⟩ := reachable_inv hs'
    exact ⟨hempty, hval⟩

theorem empty_roomId_join_witness :
    onMessage wsOpen 1 (some emptyJoinEnv) st2 =
      broadcastToRoom wsOpen 1 emptyJoinEnv st2 ∧
    mapGet "" st1.rooms = none :=
  ⟨(empty_roomId_join wsOpen 1 st2 emptyJoinEnv st1 rfl rfl).1,
   ((empty_roomId_join wsOpen 1 st2 emptyJoinEnv st1 rfl rfl).2.2.2 reachable_st1).1⟩

/-- C10: In every reachable state, a connection with a room assignment
points at a non-falsy room id whose entry exists in the directory, so
the defensive branch of `broadcastToRoom` (silent return when the
assigned room is missing from `rooms`) can never run: `handleJoinRoom`
and `handleDisconnect` keep the two maps consistent. -/
theorem defensive_branch_guard (s : ServerState) (hs : Reachable s) (ws : Conn)
    (r : RoomId) (hws : mapGet ws s.clientToRoom = some r) :
    r ≠ "" ∧ mapGet r s.rooms ≠ none := by
  obtain ⟨hcons, -, -, hval⟩ := reachable_inv hs
  have hrid : r ≠ "" := fun e => hval ws (e ▸ hws)
  obtain ⟨room, hroom, -⟩ := (hcons ws r).mpr hws
  refine ⟨hrid, ?_⟩
  rw [hroom]
  simp

theorem defensive_branch_guard_witness :
    ("r1" : RoomId) ≠ "" ∧ mapGet "r1" st1.rooms ≠ none :=
  defensive_branch_guard st1 reachable_st1 1 "r1" (by decide)

end Signal
